import Mathlib

/-!
Code patching and Windows unwinding records of the Dart VM.

A shallow embedding of `runtime/vm/code_patcher.cc` and
`runtime/platform/unwinding_records.h`, followed by the properties proved about
them.

Conventions of the embedding:

* machine integers are `Nat` (unsigned) or `Int` (signed) and every narrowing
  or wrap-around is an explicit `%`;
* memory is a function from addresses to bytes, a C array behind a pointer is a
  function from indices to elements;
* a failed `ASSERT` is the result `none`;
* global flags and the calls made to external primitives are explicit state.
-/

namespace Dart

/-! ## Machine integers -/

/-- The value of an integer converted to an unsigned type of `w` bits. -/
def toUnsigned (w : Nat) (x : Int) : Nat := (x % 2 ^ w).toNat

/-- The value of an integer converted to a signed two's complement type of `w` bits. -/
def toSigned (w : Nat) (x : Int) : Int :=
  let u : Int := x % 2 ^ w
  if u < 2 ^ (w - 1) then u else u - 2 ^ w

/-- Conversion to `uint8_t`. -/
def toUint8 (x : Int) : Nat := toUnsigned 8 x

/-- Conversion of an unsigned value to `uint32_t`. -/
def toUint32 (x : Nat) : Nat := x % 2 ^ 32

/-- Conversion to `int` (32 bits). -/
def toInt32 (x : Int) : Int := toSigned 32 x

/-- The shift `a << n` of an `int` value. -/
def intShl (a : Int) (n : Nat) : Int := toInt32 (a * 2 ^ n)

/-- Bitwise `&` of two `int` values, computed on their 32-bit two's complement patterns. -/
def intAnd (a b : Int) : Int :=
  toInt32 ((toUnsigned 32 a &&& toUnsigned 32 b : Nat) : Int)

/-- Bitwise `|` of two `int` values, computed on their 32-bit two's complement patterns. -/
def intOr (a b : Int) : Int :=
  toInt32 ((toUnsigned 32 a ||| toUnsigned 32 b : Nat) : Int)

/-! ## `runtime/vm/code_patcher.cc`: `MatchesPattern` -/

/-- Byte-addressed memory; a cell is read as a `uint8_t`. -/
abbrev Memory := Nat → Nat

/-- The `uint8_t` stored at `addr`. -/
def loadByte (mem : Memory) (addr : Nat) : Nat := mem addr % 256

/-- A load performed by `MatchesPattern`: of `pattern[i]`, or of the byte at an address. -/
inductive Access where
  | patternAt (i : Nat)
  | byteAt (addr : Nat)
  deriving DecidableEq, Repr

/-- The loop `for (intptr_t i = 0; i < size; i++)` of `MatchesPattern`, entered at
index `i` with `remaining = size - i` iterations still to run. `bytes` is the
pointer `reinterpret_cast<uint8_t*>(end - size)`; `bytes[i]` is the byte at the
word-sized address `bytes + i`. The loads are appended to `trace` in program
order; `bytes[i]` is loaded only when `val >= 0` (short-circuit `&&`). -/
def MatchesPattern.loop (wordBits : Nat) (mem : Memory) (bytes : Nat) (pattern : Nat → Int) :
    (remaining : Nat) → (i : Nat) → (trace : List Access) → Bool × List Access
  | 0, _, trace => (true, trace)
  | remaining + 1, i, trace =>
    let val : Int := pattern i
    let trace := trace ++ [Access.patternAt i]
    if val ≥ 0 then
      let addr := toUnsigned wordBits ((bytes : Int) + i)
      let trace := trace ++ [Access.byteAt addr]
      if val ≠ (loadByte mem addr : Int) then
        (false, trace)
      else
        MatchesPattern.loop wordBits mem bytes pattern remaining (i + 1) trace
    else
      MatchesPattern.loop wordBits mem bytes pattern remaining (i + 1) trace

/-- `MatchesPattern(end, pattern, size)` together with the list of loads it
performed. `wordBits` is the width of `uword`/`intptr_t`, `FLAG_support_rr` the
record/replay flag, `pattern` the `int16_t` array behind the pointer. -/
def MatchesPatternTraced (wordBits : Nat) (FLAG_support_rr : Bool) (mem : Memory)
    (end_ : Nat) (pattern : Nat → Int) (size : Int) : Bool × List Access :=
  if FLAG_support_rr then (true, [])
  else
    let bytes : Nat := toUnsigned wordBits ((end_ : Int) - size)
    MatchesPattern.loop wordBits mem bytes pattern size.toNat 0 []

/-- The boolean returned by `MatchesPattern(end, pattern, size)`. -/
def MatchesPattern (wordBits : Nat) (FLAG_support_rr : Bool) (mem : Memory)
    (end_ : Nat) (pattern : Nat → Int) (size : Int) : Bool :=
  (MatchesPatternTraced wordBits FLAG_support_rr mem end_ pattern size).1

/-- The `int16_t` array that holds the entries of the list `p`, as `MatchesPattern`
receives it behind the pointer `pattern`. -/
def patternOfList (p : List Int) : Nat → Int := fun i => p.getD i 0

/-! ## `runtime/vm/code_patcher.cc`: `WritableInstructionsScope` (IA32) -/

/-- Modelled from the spec: the page protections named for the external
virtual-memory primitive (`VirtualMemory::Protection` is declared in
`vm/virtual_memory.h`, which is not among the sources). -/
inductive Protection where
  | kExecuteOnly
  | kReadWrite
  | kReadExecute
  deriving DecidableEq, Repr

/-- Whether a protection allows writing. -/
def Protection.writable : Protection → Bool
  | .kReadWrite => true
  | _ => false

/-- A call issued to the external virtual-memory primitives. -/
inductive VMCall where
  | Protect (address : Nat) (size : Int) (mode : Protection)
  | WriteProtectCode (address : Nat) (size : Int)
  deriving DecidableEq, Repr

/-- The process state a `WritableInstructionsScope` acts on: the global
`FLAG_write_protect_code`, the protection of every address, and the calls made so
far to the virtual-memory primitives, oldest first. -/
structure VMState where
  FLAG_write_protect_code : Bool
  protection : Nat → Protection
  calls : List VMCall

/-- Whether address `a` lies in `[address, address + size)`. -/
def inRange (address : Nat) (size : Int) (a : Nat) : Bool :=
  decide (address ≤ a) && decide ((a : Int) < (address : Int) + size)

/-- Modelled from the spec: `VirtualMemory::Protect(address, size, mode)` (defined in
`vm/virtual_memory_*.cc`, not among the sources) transitions the range
`[address, address + size)` to `mode`. The call is also recorded. -/
def VirtualMemory.Protect (address : Nat) (size : Int) (mode : Protection)
    (s : VMState) : VMState :=
  { s with
    protection := fun a => if inRange address size a then mode else s.protection a
    calls := s.calls ++ [VMCall.Protect address size mode] }

/-- Modelled from the spec: `VirtualMemory::WriteProtectCode(address, size)` (not
among the sources) transitions the range `[address, address + size)` back to
read-execute. The call is also recorded. -/
def VirtualMemory.WriteProtectCode (address : Nat) (size : Int) (s : VMState) : VMState :=
  { s with
    protection := fun a =>
      if inRange address size a then Protection.kReadExecute else s.protection a
    calls := s.calls ++ [VMCall.WriteProtectCode address size] }

/-- The members of a `WritableInstructionsScope` object. -/
structure WritableInstructionsScope where
  address_ : Nat
  size_ : Int
  deriving DecidableEq, Repr

/-- The constructor `WritableInstructionsScope(uword address, intptr_t size)`. -/
def WritableInstructionsScope.construct (address : Nat) (size : Int) (s : VMState) :
    WritableInstructionsScope × VMState :=
  let this : WritableInstructionsScope := { address_ := address, size_ := size }
  if s.FLAG_write_protect_code then
    (this, VirtualMemory.Protect address size Protection.kReadWrite s)
  else
    (this, s)

/-- The destructor `~WritableInstructionsScope()`. -/
def WritableInstructionsScope.destruct (this : WritableInstructionsScope) (s : VMState) :
    VMState :=
  if s.FLAG_write_protect_code then
    VirtualMemory.WriteProtectCode this.address_ this.size_ s
  else
    s

/-- The ways control leaves a C++ block for which the language runs the
destructors of the block's automatic objects. -/
inductive ScopeExit where
  | fallThrough
  | earlyReturn
  | exception
  deriving DecidableEq, Repr

/-- A block `{ WritableInstructionsScope writable(address, size); body }`: the
object is constructed, `body` runs, and the destructor runs when control leaves the
block, whichever way `body` exited. -/
def WritableInstructionsScope.within (address : Nat) (size : Int)
    (body : VMState → VMState × ScopeExit) (s : VMState) : VMState × ScopeExit :=
  let (this, s1) := WritableInstructionsScope.construct address size s
  let (s2, exit) := body s1
  (WritableInstructionsScope.destruct this s2, exit)

/-! ## `runtime/platform/unwinding_records.h` -/

/-- How a construction can fail: a violated run-time `ASSERT`, or a violated
`static_assert` (the instantiation is rejected at compile time). -/
inductive Failure where
  | assertion
  | staticAssertion
  deriving DecidableEq, Repr

deriving instance DecidableEq for Except

/-- Modelled from the spec: the `ASSERT` macro (`platform/assert.h` is not among the
sources); a violated precondition is a fatal programmer error. -/
def ASSERT (cond : Bool) : Except Failure Unit :=
  if cond then pure () else throw Failure.assertion

/-- The `static_assert` declaration. -/
def static_assert (cond : Bool) : Except Failure Unit :=
  if cond then pure () else throw Failure.staticAssertion

/-! ### The x64 variant (`TARGET_ARCH_X64`) -/

namespace X64

/-- The struct arm of the union `UNWIND_CODE`: `UBYTE CodeOffset`,
`UBYTE UnwindOp : 4`, `UBYTE OpInfo : 4`. -/
structure UNWIND_CODE where
  CodeOffset : Nat
  UnwindOp : Nat
  OpInfo : Nat
  deriving DecidableEq, Repr

/-- The struct `UNWIND_INFO`: `Version : 3`, `Flags : 5`, `SizeOfProlog`,
`CountOfCodes`, `FrameRegister : 4`, `FrameOffset : 4`, `UnwindCode[2]`. -/
structure UNWIND_INFO where
  Version : Nat
  Flags : Nat
  SizeOfProlog : Nat
  CountOfCodes : Nat
  FrameRegister : Nat
  FrameOffset : Nat
  UnwindCode : List UNWIND_CODE
  deriving DecidableEq, Repr

def kPushRbpInstructionLength : Int := 1
def kMovRbpRspInstructionLength : Int := 3
def kRbpPrefixLength : Int := kPushRbpInstructionLength + kMovRbpRspInstructionLength
def kRBP : Int := 5
def UNW_FLAG_NHANDLER : Int := 0

/-- The constructor `GeneratedCodeUnwindInfo()`: the member `unwind_info` after the
twelve assignments. An assignment to a bit-field of `k` bits, or to a `UBYTE`,
keeps the low `k` (or 8) bits of the assigned `int`. -/
def GeneratedCodeUnwindInfo : UNWIND_INFO :=
  { Version := toUnsigned 3 1
    Flags := toUnsigned 5 UNW_FLAG_NHANDLER
    SizeOfProlog := toUint8 kRbpPrefixLength
    CountOfCodes := toUint8 2
    FrameRegister := toUnsigned 4 kRBP
    FrameOffset := toUnsigned 4 0
    UnwindCode :=
      [ { CodeOffset := toUint8 kRbpPrefixLength
          UnwindOp := toUnsigned 4 3  -- UWOP_SET_FPREG
          OpInfo := toUnsigned 4 0 },
        { CodeOffset := toUint8 kPushRbpInstructionLength
          UnwindOp := toUnsigned 4 0  -- UWOP_PUSH_NONVOL
          OpInfo := toUnsigned 4 kRBP } ] }

/-- The two bytes of an `UNWIND_CODE` under `#pragma pack(push, 1)`, with the
bit-fields of a byte allocated from its least significant bit. -/
def UNWIND_CODE.toBytes (c : UNWIND_CODE) : List Nat :=
  [c.CodeOffset % 256, (c.UnwindOp % 16) ||| ((c.OpInfo % 16) <<< 4)]

/-- The bytes of an `UNWIND_INFO` under `#pragma pack(push, 1)`, with the bit-fields
of a byte allocated from its least significant bit. -/
def UNWIND_INFO.toBytes (u : UNWIND_INFO) : List Nat :=
  [ (u.Version % 8) ||| ((u.Flags % 32) <<< 3),
    u.SizeOfProlog % 256,
    u.CountOfCodes % 256,
    (u.FrameRegister % 16) ||| ((u.FrameOffset % 16) <<< 4) ]
  ++ (u.UnwindCode.map UNWIND_CODE.toBytes).flatten

def kUnwindingRecordMagic : Nat := 0xAABBCCDD

end X64

/-! ### The 64-bit ARM variant (`TARGET_ARCH_ARM64`) -/

namespace ARM64

/-! The enumerators of `enum UnwindOp8Bit`. -/

def OpNop : Int := 0xE3
def OpAllocS : Int := 0x00
def OpSaveFpLr : Int := 0x40
def OpSaveFpLrX : Int := 0x80
def OpSetFp : Int := 0xE1
def OpAddFp : Int := 0xE2
def OpEnd : Int := 0xE4

/-- `Combine8BitUnwindCodes(code0, code1, code2, code3)`. An omitted argument is
`none` and takes the default `OpNop`; every argument is converted to `uint8_t`,
and the shifts and ors are on `uint32_t`. -/
def Combine8BitUnwindCodes (code0 code1 code2 code3 : Option Int) : Nat :=
  let code0 : Nat := toUint8 (code0.getD OpNop)
  let code1 : Nat := toUint8 (code1.getD OpNop)
  let code2 : Nat := toUint8 (code2.getD OpNop)
  let code3 : Nat := toUint8 (code3.getD OpNop)
  toUint32 code0 ||| toUint32 (toUint32 code1 <<< 8) ||| toUint32 (toUint32 code2 <<< 16)
    ||| toUint32 (toUint32 code3 <<< 24)

/-- The bit-field struct `UNWIND_INFO` (the first 32 bits of an .xdata record):
`FunctionLength : 18`, `Version : 2`, `X : 1`, `E : 1`, `EpilogCount : 5`,
`CodeWords : 5`. -/
structure UNWIND_INFO where
  FunctionLength : Nat
  Version : Nat
  X : Nat
  E : Nat
  EpilogCount : Nat
  CodeWords : Nat
  deriving DecidableEq, Repr

def kMaxFunctionLength : Int := intShl (intShl 1 18 - 1) 2
def kDefaultNumberOfUnwindCodeWords : Int := 1
def kMaxExceptionThunkSize : Int := 16
def kFunctionLengthShiftSize : Nat := 2
def kFunctionLengthMask : Int := intShl 1 kFunctionLengthShiftSize - 1

/-- The `int` value of the return expression `OpSaveFpLrX | encoded_value` of
`MakeOpSaveFpLrX`, before it is narrowed to the return type `uint8_t`. -/
def MakeOpSaveFpLrX.returnExpr (pre_index_offset : Int) : Int :=
  let kShiftSize : Nat := 3
  -- Solve for Z where -(Z+1)*8 = pre_index_offset.
  let encoded_value : Int := toInt32 (toInt32 (toInt32 (-pre_index_offset) >>> kShiftSize) - 1)
  intOr OpSaveFpLrX encoded_value

/-- `MakeOpSaveFpLrX(int pre_index_offset)`: the unwind code for
`stp fp, lr, [sp, #pre_index_offset]!`. -/
def MakeOpSaveFpLrX (pre_index_offset : Int) : Except Failure Nat := do
  ASSERT (decide (pre_index_offset ≤ -8))
  ASSERT (decide (pre_index_offset ≥ -512))
  let kShiftSize : Nat := 3
  let kShiftMask : Int := intShl 1 kShiftSize - 1
  ASSERT (intAnd pre_index_offset kShiftMask == 0)
  return toUint8 (MakeOpSaveFpLrX.returnExpr pre_index_offset)

/-- The decoding rule of the unwind code `save_fplr_x` (`10zzzzzz`), as the
specification of the encoding states it: the pre-index offset is
`-((b & 0x3F) + 1) * 8`. This is the reference `MakeOpSaveFpLrX` is compared with;
it is not part of the sources. -/
def decodeSaveFpLrX (b : Nat) : Int := -(((b &&& 0x3F : Nat) : Int) + 1) * 8

/-- The members of `UnwindData<kNumberOfUnwindCodeWords>`. An element of
`unwind_codes` is `none` until it has been assigned. -/
structure UnwindData where
  unwind_info : UNWIND_INFO
  unwind_codes : List (Option Nat)
  deriving DecidableEq, Repr

/-- The loop `for (int i = 1; i < kNumberOfUnwindCodeWords; ++i)` of the
constructor, entered at index `i` with `remaining = kNumberOfUnwindCodeWords - i`
iterations still to run. -/
def UnwindData.fillNops : (remaining : Nat) → (i : Nat) → List (Option Nat) → List (Option Nat)
  | 0, _, unwind_codes => unwind_codes
  | remaining + 1, i, unwind_codes =>
    UnwindData.fillNops remaining (i + 1)
      (unwind_codes.set i (some (Combine8BitUnwindCodes none none none none)))

/-- The `uword` local `kCallerSPOffset = -16` of the constructor (`uword` has 64 bits
on ARM64). -/
def kCallerSPOffset : Nat := toUnsigned 64 (-16)

/-- The constructor `UnwindData<kNumberOfUnwindCodeWords>::UnwindData()`. -/
def UnwindData.construct (kNumberOfUnwindCodeWords : Int) : Except Failure UnwindData := do
  -- memset(&unwind_info, 0, sizeof(UNWIND_INFO));
  let unwind_info : UNWIND_INFO :=
    { FunctionLength := 0, Version := 0, X := 0, E := 0, EpilogCount := 0, CodeWords := 0 }
  let unwind_info := { unwind_info with X := toUnsigned 1 0 }
  let unwind_info := { unwind_info with CodeWords := toUnsigned 5 kNumberOfUnwindCodeWords }
  static_assert (decide (kNumberOfUnwindCodeWords ≥ 1))
  let unwind_codes : List (Option Nat) := List.replicate kNumberOfUnwindCodeWords.toNat none
  -- the `uword` argument is converted to the parameter type `int`
  let code1 ← MakeOpSaveFpLrX (toInt32 kCallerSPOffset)
  let unwind_codes :=
    unwind_codes.set 0 (some (Combine8BitUnwindCodes (some OpSetFp) (some code1) (some OpEnd) none))
  -- Fill the rest with nops.
  let unwind_codes := UnwindData.fillNops (kNumberOfUnwindCodeWords.toNat - 1) 1 unwind_codes
  return { unwind_info := unwind_info, unwind_codes := unwind_codes }

def kDefaultRuntimeFunctionCount : Nat := 1
def kUnwindingRecordMagic : Nat := 0xAABBCCEE

/-- The 32-bit word of an `UNWIND_INFO` with the bit-fields allocated from the least
significant bit: `FunctionLength` in bits 0..17, `Version` in 18..19, `X` in 20,
`E` in 21, `EpilogCount` in 22..26, `CodeWords` in 27..31. -/
def UNWIND_INFO.toWord (u : UNWIND_INFO) : Nat :=
  (u.FunctionLength % 2 ^ 18) ||| ((u.Version % 2 ^ 2) <<< 18) ||| ((u.X % 2) <<< 20)
    ||| ((u.E % 2) <<< 21) ||| ((u.EpilogCount % 2 ^ 5) <<< 22)
    ||| ((u.CodeWords % 2 ^ 5) <<< 27)

/-- The 5-bit field `CodeWords` read back from a header word. -/
def UNWIND_INFO.readCodeWords (word : Nat) : Nat := (word >>> 27) % 2 ^ 5

/-- Modelled from the spec: the number of RuntimeFunctionEntry values of a code range
of `codeRangeLength` bytes, `N = ceil(codeRangeLength / maxChunkLength)` with
`maxChunkLength = kMaxFunctionLength` (the code that builds the record,
`unwinding_records.cc`, is not among the sources). -/
def runtimeFunctionCount (codeRangeLength : Nat) : Nat :=
  (codeRangeLength + (kMaxFunctionLength.toNat - 1)) / kMaxFunctionLength.toNat

/-- Modelled from the spec: the lengths of the chunks of a code range, `N - 1`
max-size chunks followed by exactly one remainder chunk (the code that builds the
record, `unwinding_records.cc`, is not among the sources). -/
def chunkLengths (codeRangeLength : Nat) : List Nat :=
  List.replicate (runtimeFunctionCount codeRangeLength - 1) kMaxFunctionLength.toNat
    ++ [codeRangeLength
          - (runtimeFunctionCount codeRangeLength - 1) * kMaxFunctionLength.toNat]

end ARM64

end Dart

/-! # Properties -/

namespace Dart

/-! ## Machine-integer lemmas -/

theorem toUnsigned_cast (w : Nat) (x : Int) : ((toUnsigned w x : Nat) : Int) = x % 2 ^ w := by
  unfold toUnsigned
  exact Int.toNat_of_nonneg (Int.emod_nonneg _ (by positivity))

theorem toUnsigned_add_nat (w : Nat) (x : Int) (i : Nat) :
    toUnsigned w (((toUnsigned w x : Nat) : Int) + i) = toUnsigned w (x + i) := by
  rw [toUnsigned_cast]
  unfold toUnsigned
  rw [Int.emod_add_emod]

theorem toUnsigned_of_lt (w : Nat) (x : Nat) (h : x < 2 ^ w) : toUnsigned w (x : Int) = x := by
  unfold toUnsigned
  have h2 : ((x : Int)) % 2 ^ w = x := by
    apply Int.emod_eq_of_lt (by positivity)
    exact_mod_cast h
  rw [h2]
  simp

/-! ## `MatchesPattern` -/

theorem MatchesPattern.loop_fst (wordBits : Nat) (mem : Memory) (bytes : Nat)
    (pattern : Nat → Int) (remaining i : Nat) (trace : List Access) :
    (MatchesPattern.loop wordBits mem bytes pattern remaining i trace).1 = true ↔
      ∀ k : Nat, k < remaining →
        pattern (i + k) < 0 ∨
          pattern (i + k) = loadByte mem (toUnsigned wordBits ((bytes : Int) + (i + k : Nat))) := by
  induction remaining generalizing i trace with
  | zero => simp [MatchesPattern.loop]
  | succ n ih =>
    constructor
    · intro h k hk
      unfold MatchesPattern.loop at h
      by_cases hv : pattern i ≥ 0
      · by_cases hb : pattern i ≠ (loadByte mem (toUnsigned wordBits ((bytes : Int) + i)) : Int)
        · simp [hv, hb] at h
        · simp only [hv, hb, if_true, if_false] at h
          rcases Nat.eq_zero_or_pos k with rfl | hpos
          · right; simpa using not_not.mp hb
          · have := (ih (i + 1) _).mp h (k - 1) (by omega)
            have e : i + 1 + (k - 1) = i + k := by omega
            rwa [e] at this
      · simp only [hv, if_false] at h
        rcases Nat.eq_zero_or_pos k with rfl | hpos
        · left; simpa using hv
        · have := (ih (i + 1) _).mp h (k - 1) (by omega)
          have e : i + 1 + (k - 1) = i + k := by omega
          rwa [e] at this
    · intro h
      have h0 := h 0 (by omega)
      have hrest : ∀ k : Nat, k < n →
          pattern (i + 1 + k) < 0 ∨ pattern (i + 1 + k) =
            loadByte mem (toUnsigned wordBits ((bytes : Int) + (i + 1 + k : Nat))) := by
        intro k hk
        have := h (k + 1) (by omega)
        have e : i + (k + 1) = i + 1 + k := by omega
        rwa [e] at this
      unfold MatchesPattern.loop
      by_cases hv : pattern i ≥ 0
      · have hb : pattern i = (loadByte mem (toUnsigned wordBits ((bytes : Int) + i)) : Int) := by
          rcases h0 with h0 | h0
          · simp at h0; omega
          · simpa using h0
        simp only [hv, if_true]
        rw [if_neg (not_not.mpr hb)]
        exact (ih (i + 1) _).mpr hrest
      · simp only [hv, if_false]
        exact (ih (i + 1) _).mpr hrest

/-- The characterisation of `MatchesPattern` with the record/replay flag clear, on
the address the loop really loads from. -/
theorem MatchesPattern_false_iff (wordBits : Nat) (mem : Memory) (end_ : Nat)
    (pattern : Nat → Int) (size : Int) :
    MatchesPattern wordBits false mem end_ pattern size = true ↔
      ∀ i : Nat, (i : Int) < size →
        pattern i < 0 ∨
          pattern i = loadByte mem (toUnsigned wordBits ((end_ : Int) - size + i)) := by
  unfold MatchesPattern MatchesPatternTraced
  simp only [Bool.false_eq_true, if_false]
  rw [MatchesPattern.loop_fst]
  constructor
  · intro h i hi
    have := h i (by omega)
    simpa [toUnsigned_add_nat] using this
  · intro h k hk
    have := h k (by omega)
    simpa [toUnsigned_add_nat] using this

/-- C1: with the record/replay flag clear, `MatchesPattern(end, pattern, size)` is
true exactly when every index `i` in `[0, size)` has `pattern[i]` negative or equal
to the byte at the word-sized address `end - size + i`; when `size <= end` that
address is the number `end - size + i` itself; index `size - 1` is paired with the
byte at `end - 1`; and one differing non-negative entry makes the result false. -/
theorem MatchesPattern_spec (wordBits : Nat) (mem : Memory) (end_ : Nat)
    (pattern : Nat → Int) (size : Int) :
    (MatchesPattern wordBits false mem end_ pattern size = true ↔
      ∀ i : Nat, (i : Int) < size →
        pattern i < 0 ∨
          pattern i = loadByte mem (toUnsigned wordBits ((end_ : Int) - size + i)))
    ∧ (∀ i : Nat, (i : Int) < size → end_ < 2 ^ wordBits → size ≤ end_ →
        toUnsigned wordBits ((end_ : Int) - size + i) = end_ - size.toNat + i)
    ∧ (0 < size →
        toUnsigned wordBits ((end_ : Int) - size + ((size - 1).toNat : Nat))
          = toUnsigned wordBits ((end_ : Int) - 1))
    ∧ (∀ i : Nat, (i : Int) < size → 0 ≤ pattern i →
        pattern i ≠ loadByte mem (toUnsigned wordBits ((end_ : Int) - size + i)) →
        MatchesPattern wordBits false mem end_ pattern size = false) := by
  refine ⟨MatchesPattern_false_iff wordBits mem end_ pattern size, ?_, ?_, ?_⟩
  · intro i hi hend hsize
    have e : (end_ : Int) - size + i = ((end_ - size.toNat + i : Nat) : Int) := by omega
    rw [e]
    apply toUnsigned_of_lt
    omega
  · intro hpos
    have e : (end_ : Int) - size + ((size - 1).toNat : Nat) = (end_ : Int) - 1 := by omega
    rw [e]
  · intro i hi hnonneg hne
    cases hm : MatchesPattern wordBits false mem end_ pattern size with
    | false => rfl
    | true =>
      rcases (MatchesPattern_false_iff wordBits mem end_ pattern size).mp hm i hi with h | h
      · omega
      · exact absurd h hne

/-- C2: with the record/replay flag set, `MatchesPattern` returns true for every
end address, pattern, size and memory, and performs no load from memory or from the
pattern; this includes inputs on which the same call with the flag clear is false. -/
theorem MatchesPattern_support_rr (wordBits : Nat) (mem : Memory) (end_ : Nat)
    (pattern : Nat → Int) (size : Int) :
    MatchesPattern wordBits true mem end_ pattern size = true
    ∧ (MatchesPatternTraced wordBits true mem end_ pattern size).2 = []
    ∧ (MatchesPattern wordBits false (fun _ => 0x90) 8 (fun _ => 0xCC) 1 = false
        ∧ MatchesPattern wordBits true (fun _ => 0x90) 8 (fun _ => 0xCC) 1 = true) := by
  refine ⟨rfl, rfl, ?_, rfl⟩
  simp [MatchesPattern, MatchesPatternTraced, MatchesPattern.loop, loadByte]

/-- C3: when the first `size` entries of the pattern are all negative,
`MatchesPattern` returns true for every memory content and either value of the
record/replay flag. -/
theorem MatchesPattern_all_wildcards (wordBits : Nat) (FLAG_support_rr : Bool)
    (mem : Memory) (end_ : Nat) (pattern : Nat → Int) (size : Int)
    (hwild : ∀ i : Nat, (i : Int) < size → pattern i < 0) :
    MatchesPattern wordBits FLAG_support_rr mem end_ pattern size = true := by
  cases FLAG_support_rr with
  | true => rfl
  | false =>
    rw [MatchesPattern_false_iff]
    intro i hi
    exact Or.inl (hwild i hi)

theorem MatchesPattern_all_wildcards_witness :
    (∀ i : Nat, (i : Int) < 3 → (fun _ => (-1 : Int)) i < 0)
    ∧ MatchesPattern 64 false (fun a => a) 4096 (fun _ => -1) 3 = true :=
  ⟨fun _ _ => by norm_num,
   MatchesPattern_all_wildcards 64 false (fun a => a) 4096 (fun _ => -1) 3
     (fun _ _ => by norm_num)⟩

/-! ## `MakeOpSaveFpLrX` -/

theorem intAnd_seven (o : Int) : intAnd o 7 = o % 8 := by
  unfold intAnd toInt32 toSigned toUnsigned
  have h7 : ((7 : Int) % 2 ^ 32).toNat = 2 ^ 3 - 1 := by decide
  rw [h7, Nat.and_pow_two_sub_one_eq_mod]
  norm_num
  omega

namespace ARM64

theorem MakeOpSaveFpLrX_eq (o : Int) :
    MakeOpSaveFpLrX o =
      if o ≤ -8 ∧ -512 ≤ o ∧ o % 8 = 0 then
        Except.ok (toUint8 (MakeOpSaveFpLrX.returnExpr o))
      else Except.error Failure.assertion := by
  have hmask : intShl 1 3 - 1 = 7 := by decide
  unfold MakeOpSaveFpLrX ASSERT
  simp only [hmask, intAnd_seven]
  by_cases h1 : o ≤ -8
  · by_cases h2 : -512 ≤ o
    · by_cases h3 : o % 8 = 0
      · simp [h1, h2, h3, bind, Except.bind, pure, Except.pure]
      · simp [h1, h2, h3, bind, Except.bind, pure, Except.pure, throw, throwThe,
          MonadExceptOf.throw]
    · simp [h1, h2, bind, Except.bind, pure, Except.pure, throw, throwThe,
        MonadExceptOf.throw]
  · simp [h1, bind, Except.bind, pure, Except.pure, throw, throwThe, MonadExceptOf.throw]

theorem MakeOpSaveFpLrX.returnExpr_eq (k : Nat) (hk : k < 64) :
    MakeOpSaveFpLrX.returnExpr (-8 * ((k : Int) + 1)) = 0x80 + (k : Int) := by
  interval_cases k <;> rfl

theorem valid_offset_eq (o : Int) (h8 : o % 8 = 0) (hlo : -512 ≤ o) (hhi : o ≤ -8) :
    ∃ k : Nat, k < 64 ∧ o = -8 * ((k : Int) + 1) ∧ (k : Int) = -o / 8 - 1 :=
  ⟨(-o / 8 - 1).toNat, by omega, by omega, by omega⟩

theorem MakeOpSaveFpLrX_valid (k : Nat) (hk : k < 64) :
    MakeOpSaveFpLrX (-8 * ((k : Int) + 1)) = Except.ok (0x80 + k) := by
  rw [MakeOpSaveFpLrX_eq, if_pos (by omega), MakeOpSaveFpLrX.returnExpr_eq k hk]
  congr 1
  unfold toUint8 toUnsigned
  omega

theorem save_fplr_x_bits (k : Nat) (hk : k < 64) :
    (0x80 + k) &&& 0x3F = k ∧ 0x80 ||| k = 0x80 + k ∧ (0x80 + k) >>> 6 = 2 := by
  interval_cases k <;> decide

/-- C4: for every pre-index offset `o` that is a multiple of 8 in `[-512, -8]`,
`MakeOpSaveFpLrX(o)` returns a byte `b` whose `save_fplr_x` decoding
`-((b & 0x3F) + 1) * 8` is `o`; so the encoder is injective on the valid offsets,
which are the 64 values `-8 * (k + 1)`, `k < 64`. -/
theorem MakeOpSaveFpLrX_decode_roundtrip (o : Int) (h8 : o % 8 = 0) (hlo : -512 ≤ o)
    (hhi : o ≤ -8) :
    (∃ b : Nat, MakeOpSaveFpLrX o = Except.ok b ∧ decodeSaveFpLrX b = o)
    ∧ (∀ o' : Int, o' % 8 = 0 → -512 ≤ o' → o' ≤ -8 →
        MakeOpSaveFpLrX o' = MakeOpSaveFpLrX o → o' = o)
    ∧ (∃ k : Nat, k < 64 ∧ o = -8 * ((k : Int) + 1)) := by
  obtain ⟨k, hk, rfl, -⟩ := valid_offset_eq o h8 hlo hhi
  refine ⟨⟨0x80 + k, MakeOpSaveFpLrX_valid k hk, ?_⟩, ?_, ⟨k, hk, rfl⟩⟩
  · unfold decodeSaveFpLrX
    rw [(save_fplr_x_bits k hk).1]
    ring
  · intro o' h8' hlo' hhi' heq
    obtain ⟨k', hk', rfl, -⟩ := valid_offset_eq o' h8' hlo' hhi'
    rw [MakeOpSaveFpLrX_valid k hk, MakeOpSaveFpLrX_valid k' hk'] at heq
    have := Except.ok.inj heq
    have hkk : k' = k := by omega
    rw [hkk]

theorem MakeOpSaveFpLrX_decode_roundtrip_witness :
    ((-16 : Int) % 8 = 0 ∧ (-512 : Int) ≤ -16 ∧ (-16 : Int) ≤ -8)
    ∧ (∃ b : Nat, MakeOpSaveFpLrX (-16) = Except.ok b ∧ decodeSaveFpLrX b = -16) :=
  ⟨by decide,
   (MakeOpSaveFpLrX_decode_roundtrip (-16) (by decide) (by decide) (by decide)).1⟩

/-- C5: for every valid pre-index offset `o`, the field `z = (-o / 8) - 1` lies in
`0..63` (six bits) and `MakeOpSaveFpLrX(o)` is `OpSaveFpLrX | z`; the returned byte
lies in `0x80..0xBF`, its top two bits are `10`, its low six bits are `z`, and it
equals the `int` value of the return expression, so the narrowing to `uint8_t` loses
nothing; `-8`, `-16` and `-512` give `0x80`, `0x81` and `0xBF`. -/
theorem MakeOpSaveFpLrX_encoding (o : Int) (h8 : o % 8 = 0) (hlo : -512 ≤ o)
    (hhi : o ≤ -8) :
    (0 ≤ -o / 8 - 1 ∧ -o / 8 - 1 ≤ 63 ∧ (-o / 8 - 1).toNat < 2 ^ 6)
    ∧ MakeOpSaveFpLrX o = Except.ok (OpSaveFpLrX.toNat ||| (-o / 8 - 1).toNat)
    ∧ (∃ b : Nat, MakeOpSaveFpLrX o = Except.ok b ∧ 0x80 ≤ b ∧ b ≤ 0xBF ∧ b >>> 6 = 0b10
        ∧ b &&& 0x3F = (-o / 8 - 1).toNat
        ∧ (b : Int) = MakeOpSaveFpLrX.returnExpr o)
    ∧ (MakeOpSaveFpLrX (-8) = Except.ok 0x80 ∧ MakeOpSaveFpLrX (-16) = Except.ok 0x81
        ∧ MakeOpSaveFpLrX (-512) = Except.ok 0xBF) := by
  obtain ⟨k, hk, rfl, hz⟩ := valid_offset_eq o h8 hlo hhi
  have hzk : (-(-8 * ((k : Int) + 1)) / 8 - 1).toNat = k := by omega
  obtain ⟨hand, hor, hshr⟩ := save_fplr_x_bits k hk
  have hop : OpSaveFpLrX.toNat = 0x80 := by decide
  refine ⟨⟨by omega, by omega, by rw [hzk]; simpa using hk⟩, ?_, ?_, by decide, by decide,
    by decide⟩
  · rw [hzk, hop, hor]
    exact MakeOpSaveFpLrX_valid k hk
  · refine ⟨0x80 + k, MakeOpSaveFpLrX_valid k hk, by omega, by omega, hshr, ?_, ?_⟩
    · rw [hzk]; exact hand
    · rw [MakeOpSaveFpLrX.returnExpr_eq k hk]
      push_cast
      rfl

theorem MakeOpSaveFpLrX_encoding_witness :
    ((-24 : Int) % 8 = 0 ∧ (-512 : Int) ≤ -24 ∧ (-24 : Int) ≤ -8)
    ∧ MakeOpSaveFpLrX (-24) = Except.ok (OpSaveFpLrX.toNat ||| (-(-24 : Int) / 8 - 1).toNat) :=
  ⟨by decide,
   (MakeOpSaveFpLrX_encoding (-24) (by decide) (by decide) (by decide)).2.1⟩

/-- C6: `MakeOpSaveFpLrX(o)` fails on an assertion exactly when `o > -8`, or
`o < -512`, or `o` is not a multiple of 8; for every other `o` it returns a value;
and it fails in no other way. -/
theorem MakeOpSaveFpLrX_fails_iff (o : Int) :
    (MakeOpSaveFpLrX o = Except.error Failure.assertion ↔
      (o > -8 ∨ o < -512 ∨ ¬ (8 ∣ o)))
    ∧ (¬ (o > -8 ∨ o < -512 ∨ ¬ (8 ∣ o)) → ∃ b : Nat, MakeOpSaveFpLrX o = Except.ok b)
    ∧ (∀ e : Failure, MakeOpSaveFpLrX o = Except.error e → e = Failure.assertion) := by
  rw [MakeOpSaveFpLrX_eq]
  by_cases h : o ≤ -8 ∧ -512 ≤ o ∧ o % 8 = 0
  · rw [if_pos h]
    refine ⟨⟨fun hf => (by cases hf), fun hf => (by omega)⟩, fun _ => ⟨_, rfl⟩, ?_⟩
    intro e he
    cases he
  · rw [if_neg h]
    refine ⟨⟨fun _ => (by omega), fun _ => rfl⟩, fun hf => (by omega), ?_⟩
    intro e he
    cases he
    rfl

/-! ## `UnwindData` -/

theorem UnwindData.fillNops_length (remaining i : Nat) (codes : List (Option Nat)) :
    (UnwindData.fillNops remaining i codes).length = codes.length := by
  induction remaining generalizing i codes with
  | zero => rfl
  | succ r ih => simp [UnwindData.fillNops, ih]

theorem UnwindData.fillNops_getElem? (remaining i : Nat) (codes : List (Option Nat)) (j : Nat) :
    (UnwindData.fillNops remaining i codes)[j]? =
      if i ≤ j ∧ j < i + remaining ∧ j < codes.length then
        some (some (Combine8BitUnwindCodes none none none none))
      else codes[j]? := by
  induction remaining generalizing i codes with
  | zero =>
    have : ¬ (i ≤ j ∧ j < i + 0 ∧ j < codes.length) := by omega
    rw [if_neg this]
    rfl
  | succ r ih =>
    unfold UnwindData.fillNops
    rw [ih, List.length_set, List.getElem?_set]
    by_cases h1 : i + 1 ≤ j ∧ j < i + 1 + r ∧ j < codes.length
    · have h2 : i ≤ j ∧ j < i + (r + 1) ∧ j < codes.length := by omega
      rw [if_pos h1, if_pos h2]
    · rw [if_neg h1]
      by_cases h3 : i = j
      · subst h3
        by_cases h4 : i < codes.length
        · have h2 : i ≤ i ∧ i < i + (r + 1) ∧ i < codes.length := by omega
          simp [h4]
        · have h2 : ¬ (i ≤ i ∧ i < i + (r + 1) ∧ i < codes.length) := by omega
          rw [if_pos rfl, if_neg h4, if_neg h2]
          exact (List.getElem?_eq_none (by omega)).symm
      · have h2 : ¬ (i ≤ j ∧ j < i + (r + 1) ∧ j < codes.length) := by omega
        rw [if_neg h3, if_neg h2]

theorem UnwindData.construct_eq (n : Int) (hn : 1 ≤ n) :
    UnwindData.construct n = Except.ok
      { unwind_info :=
          { FunctionLength := 0, Version := 0, X := 0, E := 0, EpilogCount := 0,
            CodeWords := toUnsigned 5 n }
        unwind_codes :=
          UnwindData.fillNops (n.toNat - 1) 1
            ((List.replicate n.toNat none).set 0 (some 0xE3E481E1)) } := by
  have hcode : MakeOpSaveFpLrX (toInt32 kCallerSPOffset) = Except.ok 0x81 := by decide
  have hword : Combine8BitUnwindCodes (some OpSetFp) (some 129) (some OpEnd) none
      = 0xE3E481E1 := by decide
  have hx : toUnsigned 1 0 = 0 := by decide
  unfold UnwindData.construct static_assert
  simp [hn, hcode, hword, hx, bind, Except.bind, pure, Except.pure]

/-- C7: for every code-word count `n >= 1` the constructor of `UnwindData<n>`
succeeds and leaves `n` code words, of which `unwind_codes[0]` is `0xE3E481E1`, whose
bytes from the least significant are `OpSetFp`, `MakeOpSaveFpLrX(-16) = 0x81`,
`OpEnd`, `OpNop`, and every `unwind_codes[i]` with `1 <= i < n` is `0xE3E3E3E3`; the
`uword` offset `2^64 - 16` is converted to the `int` `-16`, on which the encoder
returns without a failed assertion. -/
theorem UnwindData_construct_codes (n : Int) (hn : 1 ≤ n) :
    ∃ r : UnwindData, UnwindData.construct n = Except.ok r
      ∧ r.unwind_codes.length = n.toNat
      ∧ r.unwind_codes[0]? = some (some 0xE3E481E1)
      ∧ (∀ i : Nat, 1 ≤ i → (i : Int) < n → r.unwind_codes[i]? = some (some 0xE3E3E3E3))
      ∧ ([(0xE3E481E1 : Int) % 256, 0xE3E481E1 / 2 ^ 8 % 256, 0xE3E481E1 / 2 ^ 16 % 256,
            0xE3E481E1 / 2 ^ 24 % 256] = [OpSetFp, 0x81, OpEnd, OpNop])
      ∧ (kCallerSPOffset = 2 ^ 64 - 16 ∧ toInt32 kCallerSPOffset = -16
          ∧ MakeOpSaveFpLrX (toInt32 kCallerSPOffset) = Except.ok 0x81) := by
  refine ⟨_, UnwindData.construct_eq n hn, ?_, ?_, ?_, by decide, by decide⟩
  · simp [UnwindData.fillNops_length]
  · show (UnwindData.fillNops _ _ _)[0]? = _
    rw [UnwindData.fillNops_getElem?, if_neg (by omega), List.getElem?_set]
    have : 0 < (List.replicate n.toNat (none : Option Nat)).length := by
      rw [List.length_replicate]; omega
    rw [if_pos rfl, if_pos this]
  · intro i hi hin
    show (UnwindData.fillNops _ _ _)[i]? = _
    have hnop : Combine8BitUnwindCodes none none none none = 0xE3E3E3E3 := by decide
    rw [UnwindData.fillNops_getElem?, if_pos, hnop]
    rw [List.length_set, List.length_replicate]
    omega

theorem UnwindData_construct_codes_witness :
    (1 : Int) ≤ 3
    ∧ UnwindData.construct 3 = Except.ok
        { unwind_info :=
            { FunctionLength := 0, Version := 0, X := 0, E := 0, EpilogCount := 0,
              CodeWords := 3 }
          unwind_codes := [some 0xE3E481E1, some 0xE3E3E3E3, some 0xE3E3E3E3] }
    ∧ ∃ r : UnwindData, UnwindData.construct 3 = Except.ok r
        ∧ r.unwind_codes[0]? = some (some 0xE3E481E1)
        ∧ r.unwind_codes[2]? = some (some 0xE3E3E3E3) := by
  refine ⟨by decide, by decide, ?_⟩
  obtain ⟨r, hr, -, h0, hrest, -⟩ := UnwindData_construct_codes 3 (by decide)
  exact ⟨r, hr, h0, hrest 2 (by decide) (by decide)⟩

end ARM64

/-! ## The x64 unwind-info block -/

namespace X64

/-- C8: the block built by `GeneratedCodeUnwindInfo` is one constant: `Version = 1`,
`Flags = 0 = UNW_FLAG_NHANDLER`, `SizeOfProlog = 4 = 1 + 3`, `CountOfCodes = 2`, the
number of `UnwindCode` slots, `FrameRegister = 5 = kRBP`, `FrameOffset = 0`,
`UnwindCode[0] = {4, 3, 0}`, `UnwindCode[1] = {1, 0, 5}`; packed with bit-fields
from the low bits it is the eight bytes `01 04 02 05 04 03 01 50`. -/
theorem GeneratedCodeUnwindInfo_constant :
    GeneratedCodeUnwindInfo =
        { Version := 1, Flags := 0, SizeOfProlog := 4, CountOfCodes := 2,
          FrameRegister := 5, FrameOffset := 0,
          UnwindCode :=
            [ { CodeOffset := 4, UnwindOp := 3, OpInfo := 0 },
              { CodeOffset := 1, UnwindOp := 0, OpInfo := 5 } ] }
    ∧ (GeneratedCodeUnwindInfo.Flags : Int) = UNW_FLAG_NHANDLER
    ∧ (GeneratedCodeUnwindInfo.SizeOfProlog : Int)
        = kPushRbpInstructionLength + kMovRbpRspInstructionLength
    ∧ kPushRbpInstructionLength = 1 ∧ kMovRbpRspInstructionLength = 3
    ∧ GeneratedCodeUnwindInfo.CountOfCodes = GeneratedCodeUnwindInfo.UnwindCode.length
    ∧ (GeneratedCodeUnwindInfo.FrameRegister : Int) = kRBP
    ∧ GeneratedCodeUnwindInfo.toBytes = [0x01, 0x04, 0x02, 0x05, 0x04, 0x03, 0x01, 0x50] := by
  decide

end X64

/-! ## `WritableInstructionsScope` -/

/-- C9: when `FLAG_write_protect_code` is enabled at construction and at
destruction, the constructor records its arguments and issues exactly the one call
`Protect(address, size, kReadWrite)`, the destructor issues exactly the one call
`WriteProtectCode` with that address and size, and every address of
`[address, address + size)` is read-execute and not writable once the block is left,
whatever the body did (to the protections or otherwise) and however it exited. -/
theorem WritableInstructionsScope_write_protects (address : Nat) (size : Int) (s : VMState)
    (body : VMState → VMState × ScopeExit)
    (hflag : s.FLAG_write_protect_code = true)
    (hflag2 :
      (body (WritableInstructionsScope.construct address size s).2).1.FLAG_write_protect_code
        = true) :
    (WritableInstructionsScope.construct address size s).1
        = { address_ := address, size_ := size }
    ∧ (WritableInstructionsScope.construct address size s).2.calls
        = s.calls ++ [VMCall.Protect address size Protection.kReadWrite]
    ∧ (∀ t : VMState, t.FLAG_write_protect_code = true →
        (WritableInstructionsScope.destruct
            (WritableInstructionsScope.construct address size s).1 t).calls
          = t.calls ++ [VMCall.WriteProtectCode address size])
    ∧ (WritableInstructionsScope.within address size body s).1.calls
        = (body (WritableInstructionsScope.construct address size s).2).1.calls
            ++ [VMCall.WriteProtectCode address size]
    ∧ (∀ a : Nat, inRange address size a = true →
        (WritableInstructionsScope.within address size body s).1.protection a
            = Protection.kReadExecute
          ∧ ((WritableInstructionsScope.within address size body s).1.protection a).writable
            = false)
    ∧ (WritableInstructionsScope.within address size body s).2
        = (body (WritableInstructionsScope.construct address size s).2).2 := by
  have hc : WritableInstructionsScope.construct address size s
      = ({ address_ := address, size_ := size },
          VirtualMemory.Protect address size Protection.kReadWrite s) := by
    simp [WritableInstructionsScope.construct, hflag]
  rw [hc] at hflag2
  have hw : WritableInstructionsScope.within address size body s
      = (VirtualMemory.WriteProtectCode address size
            (body (VirtualMemory.Protect address size Protection.kReadWrite s)).1,
          (body (VirtualMemory.Protect address size Protection.kReadWrite s)).2) := by
    simp [WritableInstructionsScope.within, hc, WritableInstructionsScope.destruct, hflag2]
  rw [hc, hw]
  refine ⟨rfl, rfl, ?_, rfl, ?_, rfl⟩
  · intro t ht
    simp [WritableInstructionsScope.destruct, ht, VirtualMemory.WriteProtectCode]
  · intro a ha
    simp [VirtualMemory.WriteProtectCode, ha, Protection.writable]

theorem WritableInstructionsScope_write_protects_witness :
    (∀ a : Nat, inRange 4096 16 a = true →
      (WritableInstructionsScope.within 4096 16 (fun t => (t, ScopeExit.exception))
          { FLAG_write_protect_code := true
            protection := fun _ => Protection.kExecuteOnly
            calls := [] }).1.protection a = Protection.kReadExecute)
    ∧ (WritableInstructionsScope.within 4096 16 (fun t => (t, ScopeExit.exception))
          { FLAG_write_protect_code := true
            protection := fun _ => Protection.kExecuteOnly
            calls := [] }).1.calls
        = [VMCall.Protect 4096 16 Protection.kReadWrite, VMCall.WriteProtectCode 4096 16] :=
  ⟨fun a ha =>
      ((WritableInstructionsScope_write_protects 4096 16
          { FLAG_write_protect_code := true
            protection := fun _ => Protection.kExecuteOnly
            calls := [] }
          (fun t => (t, ScopeExit.exception)) rfl rfl).2.2.2.2.1 a ha).1,
   by decide⟩

/-- C10: when `FLAG_write_protect_code` is disabled, the constructor and the
destructor call neither `Protect` nor `WriteProtectCode` and leave the state, its
page protections included, as it was; a block whose body leaves the flag disabled
ends in the state its body ended in. -/
theorem WritableInstructionsScope_disabled (address : Nat) (size : Int) (s : VMState)
    (body : VMState → VMState × ScopeExit)
    (hflag : s.FLAG_write_protect_code = false)
    (hflag2 : (body s).1.FLAG_write_protect_code = false) :
    (WritableInstructionsScope.construct address size s).2 = s
    ∧ WritableInstructionsScope.destruct
        (WritableInstructionsScope.construct address size s).1
        (WritableInstructionsScope.construct address size s).2 = s
    ∧ (WritableInstructionsScope.destruct
        (WritableInstructionsScope.construct address size s).1
        (WritableInstructionsScope.construct address size s).2).calls = s.calls
    ∧ (WritableInstructionsScope.destruct
        (WritableInstructionsScope.construct address size s).1
        (WritableInstructionsScope.construct address size s).2).protection = s.protection
    ∧ WritableInstructionsScope.within address size body s = body s
    ∧ ((body s).1.protection = s.protection →
        (WritableInstructionsScope.within address size body s).1.protection
          = s.protection) := by
  have hc : WritableInstructionsScope.construct address size s
      = ({ address_ := address, size_ := size }, s) := by
    simp [WritableInstructionsScope.construct, hflag]
  have hd : ∀ this : WritableInstructionsScope,
      WritableInstructionsScope.destruct this s = s := by
    intro this
    simp [WritableInstructionsScope.destruct, hflag]
  rw [hc]
  have hw : WritableInstructionsScope.within address size body s = body s := by
    simp [WritableInstructionsScope.within, hc, WritableInstructionsScope.destruct, hflag2]
  refine ⟨rfl, hd _, by rw [hd], by rw [hd], hw, ?_⟩
  intro hp
  rw [hw, hp]

theorem WritableInstructionsScope_disabled_witness :
    (WritableInstructionsScope.within 4096 16 (fun t => (t, ScopeExit.fallThrough))
        { FLAG_write_protect_code := false
          protection := fun _ => Protection.kReadExecute
          calls := [] }).1.calls = [] :=
  congrArg (fun r => r.1.calls)
    (WritableInstructionsScope_disabled 4096 16
      { FLAG_write_protect_code := false
        protection := fun _ => Protection.kReadExecute
        calls := [] }
      (fun t => (t, ScopeExit.fallThrough)) rfl rfl).2.2.2.2.1

/-! ## The ARM64 function-length field -/

theorem intAnd_three (x : Int) : intAnd x 3 = x % 4 := by
  unfold intAnd toInt32 toSigned toUnsigned
  have h3 : ((3 : Int) % 2 ^ 32).toNat = 2 ^ 2 - 1 := by decide
  rw [h3, Nat.and_pow_two_sub_one_eq_mod]
  norm_num
  omega

namespace ARM64

theorem kMaxFunctionLength_eq : kMaxFunctionLength = 1048572 := by decide

/-- C11: `kMaxFunctionLength` is `(2^18 - 1) * 4 = 1048572 = 2^20 - 4`, and for every
non-negative `L` with `(L & kFunctionLengthMask) = 0` the shifted length
`L >> kFunctionLengthShiftSize` is below `2^18` exactly when
`L <= kMaxFunctionLength`, in which case shifting it left again returns `L`. -/
theorem kMaxFunctionLength_largest :
    kMaxFunctionLength = (2 ^ 18 - 1) * 4
    ∧ kMaxFunctionLength = 1048572
    ∧ kMaxFunctionLength = 2 ^ 20 - 4
    ∧ ∀ L : Int, 0 ≤ L → intAnd L kFunctionLengthMask = 0 →
        ((L >>> kFunctionLengthShiftSize < 2 ^ 18 ↔ L ≤ kMaxFunctionLength)
          ∧ (L ≤ kMaxFunctionLength →
              intShl (L >>> kFunctionLengthShiftSize) kFunctionLengthShiftSize = L)) := by
  refine ⟨by decide, by decide, by decide, ?_⟩
  intro L h0 hmask
  have hm : kFunctionLengthMask = 3 := by decide
  have hs : kFunctionLengthShiftSize = 2 := rfl
  rw [hm, intAnd_three] at hmask
  rw [hs, kMaxFunctionLength_eq, Int.shiftRight_eq_div_pow]
  norm_num
  refine ⟨by omega, ?_⟩
  intro hle
  unfold intShl toInt32 toSigned
  norm_num
  have h1 : L / 4 * 4 = L := by omega
  rw [h1]
  have h2 : L % 4294967296 = L := by omega
  rw [h2, if_pos (by omega)]

/-! ## The chunks of an ARM64 code range -/

theorem kMaxFunctionLength_toNat : kMaxFunctionLength.toNat = 1048572 := by decide

theorem runtimeFunctionCount_bounds (L : Nat) (hL : 0 < L) :
    1 ≤ runtimeFunctionCount L
    ∧ (runtimeFunctionCount L - 1) * 1048572 < L
    ∧ L ≤ runtimeFunctionCount L * 1048572 := by
  unfold runtimeFunctionCount
  rw [kMaxFunctionLength_toNat]
  have h1 := Nat.div_add_mod (L + (1048572 - 1)) 1048572
  have h2 := Nat.mod_lt (L + (1048572 - 1)) (by decide : 1048572 > 0)
  omega

/-- C12: for every code-range length `L > 0` of the 64-bit ARM variant the number of
chunks is `ceil(L / kMaxFunctionLength)`, every chunk but the last has length
`kMaxFunctionLength`, the last has a length in `(0, kMaxFunctionLength]`, and the
lengths sum to `L`. -/
theorem chunkLengths_partition (L : Nat) (hL : 0 < L) :
    (chunkLengths L).length = runtimeFunctionCount L
    ∧ runtimeFunctionCount L = ⌈(L : ℚ) / (kMaxFunctionLength : ℚ)⌉₊
    ∧ (∀ i : Nat, i + 1 < (chunkLengths L).length →
        (chunkLengths L)[i]? = some kMaxFunctionLength.toNat)
    ∧ (∃ last : Nat, (chunkLengths L).getLast? = some last ∧ 0 < last
        ∧ last ≤ kMaxFunctionLength.toNat)
    ∧ (chunkLengths L).sum = L := by
  obtain ⟨hN1, hlo, hhi⟩ := runtimeFunctionCount_bounds L hL
  have hlen : (chunkLengths L).length = runtimeFunctionCount L := by
    simp [chunkLengths]
    omega
  refine ⟨hlen, ?_, ?_, ?_, ?_⟩
  · symm
    rw [Nat.ceil_eq_iff (by omega), kMaxFunctionLength_eq]
    have hM : (0 : ℚ) < ((1048572 : Int) : ℚ) := by norm_num
    constructor
    · rw [lt_div_iff₀ hM]
      have : ((runtimeFunctionCount L - 1 : Nat) : ℚ) * ((1048572 : Int) : ℚ)
          = (((runtimeFunctionCount L - 1) * 1048572 : Nat) : ℚ) := by push_cast; ring
      rw [this]
      exact_mod_cast hlo
    · rw [div_le_iff₀ hM]
      have : (runtimeFunctionCount L : ℚ) * ((1048572 : Int) : ℚ)
          = ((runtimeFunctionCount L * 1048572 : Nat) : ℚ) := by push_cast; ring
      rw [this]
      exact_mod_cast hhi
  · intro i hi
    rw [hlen] at hi
    unfold chunkLengths
    rw [List.getElem?_append_left (by rw [List.length_replicate]; omega),
      List.getElem?_replicate, if_pos (by omega)]
  · refine ⟨L - (runtimeFunctionCount L - 1) * kMaxFunctionLength.toNat, ?_, ?_, ?_⟩
    · unfold chunkLengths
      exact List.getLast?_concat _
    · rw [kMaxFunctionLength_toNat]; omega
    · rw [kMaxFunctionLength_toNat]; omega
  · unfold chunkLengths
    rw [List.sum_append, List.sum_replicate, List.sum_singleton, smul_eq_mul,
      kMaxFunctionLength_toNat]
    omega

theorem chunkLengths_partition_witness :
    0 < 2097145 ∧ chunkLengths 2097145 = [1048572, 1048572, 1]
    ∧ (chunkLengths 2097145).sum = 2097145 :=
  ⟨by decide, by decide, (chunkLengths_partition 2097145 (by decide)).2.2.2.2⟩

/-! ## `Combine8BitUnwindCodes` and the header word -/

theorem or_shiftLeft_eq_add (x c i : Nat) (hx : x < 2 ^ i) :
    x ||| c <<< i = 2 ^ i * c + x := by
  rw [Nat.or_comm, Nat.shiftLeft_eq, Nat.mul_comm c]
  exact (Nat.mul_add_lt_is_or hx c).symm

theorem Combine8BitUnwindCodes_eq_sum (c0 c1 c2 c3 : Nat) (h0 : c0 < 256) (h1 : c1 < 256)
    (h2 : c2 < 256) (h3 : c3 < 256) :
    Combine8BitUnwindCodes (some (c0 : Int)) (some (c1 : Int)) (some (c2 : Int))
        (some (c3 : Int))
      = c0 + 256 * c1 + 65536 * c2 + 16777216 * c3 := by
  have hu : ∀ c : Nat, c < 256 → toUint8 (c : Int) = c := by
    intro c hc
    exact toUnsigned_of_lt 8 c (by simpa using hc)
  have hs : ∀ (c i : Nat), c < 256 → i ≤ 24 → toUint32 (toUint32 c <<< i) = c <<< i := by
    intro c i hc hi
    have hci : c <<< i < 2 ^ 32 := by
      rw [Nat.shiftLeft_eq]
      calc c * 2 ^ i < 2 ^ 8 * 2 ^ i := by
            apply Nat.mul_lt_mul_of_pos_right (by simpa using hc) (by positivity)
        _ = 2 ^ (8 + i) := by rw [pow_add]
        _ ≤ 2 ^ 32 := Nat.pow_le_pow_right (by decide) (by omega)
    unfold toUint32
    rw [Nat.mod_eq_of_lt (by omega : c < 2 ^ 32), Nat.mod_eq_of_lt hci]
  have h00 : toUint32 c0 = c0 := by
    unfold toUint32
    exact Nat.mod_eq_of_lt (by omega)
  unfold Combine8BitUnwindCodes
  simp only [Option.getD_some]
  rw [hu c0 h0, hu c1 h1, hu c2 h2, hu c3 h3, h00, hs c1 8 h1 (by decide),
    hs c2 16 h2 (by decide), hs c3 24 h3 (by decide)]
  rw [or_shiftLeft_eq_add c0 c1 8 (by omega)]
  rw [or_shiftLeft_eq_add _ c2 16 (by omega)]
  rw [or_shiftLeft_eq_add _ c3 24 (by omega)]
  omega

end ARM64

/-- C13: the x64 magic constant `0xAABBCCDD` and the ARM64 magic constant
`0xAABBCCEE` differ, so an equality check of one against the other fails. -/
theorem kUnwindingRecordMagic_distinct :
    X64.kUnwindingRecordMagic = 0xAABBCCDD
    ∧ ARM64.kUnwindingRecordMagic = 0xAABBCCEE
    ∧ X64.kUnwindingRecordMagic ≠ ARM64.kUnwindingRecordMagic
    ∧ (X64.kUnwindingRecordMagic == ARM64.kUnwindingRecordMagic) = false
    ∧ (ARM64.kUnwindingRecordMagic == X64.kUnwindingRecordMagic) = false := by
  decide

namespace ARM64

/-- C14: `Combine8BitUnwindCodes` packs four bytes little-endian without loss: byte
`i` of the result, `(w >> 8*i) & 0xFF`, is the `i`-th argument; an omitted argument
stands for `OpNop`, and the call with no arguments yields `0xE3E3E3E3`. -/
theorem Combine8BitUnwindCodes_bytes (c0 c1 c2 c3 : Nat) (h0 : c0 < 256) (h1 : c1 < 256)
    (h2 : c2 < 256) (h3 : c3 < 256) :
    ((Combine8BitUnwindCodes (some (c0 : Int)) (some (c1 : Int)) (some (c2 : Int))
        (some (c3 : Int)) >>> (8 * 0)) &&& 0xFF = c0
      ∧ (Combine8BitUnwindCodes (some (c0 : Int)) (some (c1 : Int)) (some (c2 : Int))
        (some (c3 : Int)) >>> (8 * 1)) &&& 0xFF = c1
      ∧ (Combine8BitUnwindCodes (some (c0 : Int)) (some (c1 : Int)) (some (c2 : Int))
        (some (c3 : Int)) >>> (8 * 2)) &&& 0xFF = c2
      ∧ (Combine8BitUnwindCodes (some (c0 : Int)) (some (c1 : Int)) (some (c2 : Int))
        (some (c3 : Int)) >>> (8 * 3)) &&& 0xFF = c3)
    ∧ (∀ a b c d : Option Int,
        Combine8BitUnwindCodes a b c d
          = Combine8BitUnwindCodes (some (a.getD OpNop)) (some (b.getD OpNop))
              (some (c.getD OpNop)) (some (d.getD OpNop)))
    ∧ Combine8BitUnwindCodes none none none none = 0xE3E3E3E3 := by
  have hmask : ∀ x : Nat, x &&& 0xFF = x % 256 := by
    intro x
    exact Nat.and_pow_two_sub_one_eq_mod x 8
  refine ⟨?_, fun _ _ _ _ => rfl, by decide⟩
  rw [Combine8BitUnwindCodes_eq_sum c0 c1 c2 c3 h0 h1 h2 h3]
  simp only [hmask, Nat.shiftRight_eq_div_pow]
  norm_num
  refine ⟨?_, ?_, ?_, ?_⟩ <;> omega

theorem Combine8BitUnwindCodes_bytes_witness :
    ((0xE1 : Nat) < 256 ∧ (0x81 : Nat) < 256 ∧ (0xE4 : Nat) < 256 ∧ (0xE3 : Nat) < 256)
    ∧ (Combine8BitUnwindCodes (some ((0xE1 : Nat) : Int)) (some ((0x81 : Nat) : Int))
        (some ((0xE4 : Nat) : Int)) (some ((0xE3 : Nat) : Int)) >>> (8 * 1)) &&& 0xFF = 0x81 :=
  ⟨by decide,
   (Combine8BitUnwindCodes_bytes 0xE1 0x81 0xE4 0xE3 (by decide) (by decide) (by decide)
      (by decide)).1.2.1⟩

/-- C15: for every code-word count `n` with `1 <= n <= 31` the header built by the
constructor of `UnwindData<n>` has `FunctionLength`, `Version`, `X`, `E` and
`EpilogCount` zero and `CodeWords = n`; its word is `n * 2^27` and the 5-bit field
`CodeWords` read back from the word is `n`. For `n = 32` the `static_assert` holds
but the field keeps `0`. -/
theorem UnwindData_construct_header (n : Int) (h1 : 1 ≤ n) (h31 : n ≤ 31) :
    (∃ r : UnwindData, UnwindData.construct n = Except.ok r
      ∧ r.unwind_info =
          { FunctionLength := 0, Version := 0, X := 0, E := 0, EpilogCount := 0,
            CodeWords := n.toNat }
      ∧ r.unwind_info.toWord = n.toNat * 2 ^ 27
      ∧ UNWIND_INFO.readCodeWords r.unwind_info.toWord = n.toNat)
    ∧ (∃ r : UnwindData, UnwindData.construct 32 = Except.ok r
        ∧ r.unwind_info.CodeWords = 0
        ∧ UNWIND_INFO.readCodeWords r.unwind_info.toWord = 0) := by
  refine ⟨⟨_, UnwindData.construct_eq n h1, ?_, ?_, ?_⟩,
    ⟨_, UnwindData.construct_eq 32 (by decide), by decide, by decide⟩⟩
  · show ({ FunctionLength := 0, Version := 0, X := 0, E := 0, EpilogCount := 0,
            CodeWords := toUnsigned 5 n } : UNWIND_INFO) = _
    interval_cases n <;> decide
  · show ({ FunctionLength := 0, Version := 0, X := 0, E := 0, EpilogCount := 0,
            CodeWords := toUnsigned 5 n } : UNWIND_INFO).toWord = _
    interval_cases n <;> decide
  · show UNWIND_INFO.readCodeWords
        ({ FunctionLength := 0, Version := 0, X := 0, E := 0, EpilogCount := 0,
            CodeWords := toUnsigned 5 n } : UNWIND_INFO).toWord = _
    interval_cases n <;> decide

theorem UnwindData_construct_header_witness :
    ((1 : Int) ≤ 2 ∧ (2 : Int) ≤ 31)
    ∧ ∃ r : UnwindData, UnwindData.construct 2 = Except.ok r
      ∧ r.unwind_info =
          { FunctionLength := 0, Version := 0, X := 0, E := 0, EpilogCount := 0,
            CodeWords := (2 : Int).toNat }
      ∧ r.unwind_info.toWord = (2 : Int).toNat * 2 ^ 27
      ∧ UNWIND_INFO.readCodeWords r.unwind_info.toWord = (2 : Int).toNat :=
  ⟨by decide, (UnwindData_construct_header 2 (by decide) (by decide)).1⟩

end ARM64

/-! ## Further properties of `MatchesPattern` -/

theorem loadByte_lt (mem : Memory) (addr : Nat) : loadByte mem addr < 256 :=
  Nat.mod_lt _ (by decide)

theorem toUnsigned_cast_add (w : Nat) (x y : Int) :
    toUnsigned w (((toUnsigned w x : Nat) : Int) + y) = toUnsigned w (x + y) := by
  rw [toUnsigned_cast]
  unfold toUnsigned
  rw [Int.emod_add_emod]

/-- C16: with the record/replay flag clear, a pattern entry `pattern[i]`, `i < size`,
that is 256 or more (so any entry in `256..32767`) makes `MatchesPattern` false for
every memory content. -/
theorem MatchesPattern_non_byte_entry (wordBits : Nat) (mem : Memory) (end_ : Nat)
    (pattern : Nat → Int) (size : Int) (i : Nat) (hi : (i : Int) < size)
    (hlo : 256 ≤ pattern i) :
    MatchesPattern wordBits false mem end_ pattern size = false := by
  cases hm : MatchesPattern wordBits false mem end_ pattern size with
  | false => rfl
  | true =>
    have hb := loadByte_lt mem (toUnsigned wordBits ((end_ : Int) - size + i))
    rcases (MatchesPattern_false_iff wordBits mem end_ pattern size).mp hm i hi with h | h
    · omega
    · omega

theorem MatchesPattern_non_byte_entry_witness :
    ((0 : Nat) : Int) < 1 ∧ (256 : Int) ≤ (fun _ => (32767 : Int)) 0
    ∧ MatchesPattern 64 false (fun _ => 0xFF) 4096 (fun _ => 32767) 1 = false :=
  ⟨by decide, by decide,
   MatchesPattern_non_byte_entry 64 (fun _ => 0xFF) 4096 (fun _ => 32767) 1 0
     (by decide) (by decide)⟩

theorem patternOfList_append_left (p1 p2 : List Int) (i : Nat) (hi : i < p1.length) :
    patternOfList (p1 ++ p2) i = patternOfList p1 i := by
  unfold patternOfList
  exact List.getD_append p1 p2 0 i hi

theorem patternOfList_append_right (p1 p2 : List Int) (j : Nat) :
    patternOfList (p1 ++ p2) (p1.length + j) = patternOfList p2 j := by
  unfold patternOfList
  rw [List.getD_append_right p1 p2 0 (p1.length + j) (by omega)]
  congr 1
  omega

/-- C17: with the record/replay flag clear, matching the concatenation `p1 ++ p2`
against the `n1 + n2` bytes ending at `end` is matching `p1` against the `n1` bytes
ending at `end - n2` and `p2` against the `n2` bytes ending at `end`, over the same
memory; the empty pattern (size 0) matches at every address. -/
theorem MatchesPattern_append (wordBits : Nat) (mem : Memory) (end_ : Nat)
    (p1 p2 : List Int) :
    MatchesPattern wordBits false mem end_ (patternOfList (p1 ++ p2))
        ((p1.length : Int) + (p2.length : Int))
      = (MatchesPattern wordBits false mem
            (toUnsigned wordBits ((end_ : Int) - (p2.length : Int))) (patternOfList p1)
            (p1.length : Int)
          && MatchesPattern wordBits false mem end_ (patternOfList p2) (p2.length : Int))
    ∧ (∀ pattern : Nat → Int, MatchesPattern wordBits false mem end_ pattern 0 = true) := by
  constructor
  · rw [Bool.eq_iff_iff, Bool.and_eq_true]
    simp only [MatchesPattern_false_iff]
    have haddr1 : ∀ i : Nat,
        toUnsigned wordBits
            (((toUnsigned wordBits ((end_ : Int) - (p2.length : Int)) : Nat) : Int)
              - (p1.length : Int) + (i : Int))
          = toUnsigned wordBits
              ((end_ : Int) - ((p1.length : Int) + (p2.length : Int)) + (i : Int)) := by
      intro i
      have e1 : ((toUnsigned wordBits ((end_ : Int) - (p2.length : Int)) : Nat) : Int)
            - (p1.length : Int) + (i : Int)
          = ((toUnsigned wordBits ((end_ : Int) - (p2.length : Int)) : Nat) : Int)
            + (-(p1.length : Int) + (i : Int)) := by ring
      rw [e1, toUnsigned_cast_add]
      congr 1
      ring
    have haddr2 : ∀ j : Nat,
        (end_ : Int) - ((p1.length : Int) + (p2.length : Int)) + ((p1.length + j : Nat) : Int)
          = (end_ : Int) - (p2.length : Int) + (j : Int) := by
      intro j
      push_cast
      ring
    constructor
    · intro h
      constructor
      · intro i hi
        have hi1 : i < p1.length := by omega
        have := h i (by omega)
        rw [patternOfList_append_left p1 p2 i hi1] at this
        rw [haddr1]
        exact this
      · intro j hj
        have := h (p1.length + j) (by push_cast; omega)
        rw [patternOfList_append_right, haddr2] at this
        exact this
    · rintro ⟨h1, h2⟩ i hi
      by_cases hlt : i < p1.length
      · have := h1 i (by omega)
        rw [haddr1] at this
        rw [patternOfList_append_left p1 p2 i hlt]
        exact this
      · have := h2 (i - p1.length) (by omega)
        have hi2 : i = p1.length + (i - p1.length) := by omega
        rw [hi2, patternOfList_append_right, haddr2]
        exact this
  · intro pattern
    rfl

/-- C18: for either value of the record/replay flag, every memory, end address and
size, when `MatchesPattern(end, p, size)` is true and `q` agrees with `p` except at
entries where `q` is negative, `MatchesPattern(end, q, size)` is true. -/
theorem MatchesPattern_weaken (wordBits : Nat) (FLAG_support_rr : Bool) (mem : Memory)
    (end_ : Nat) (p q : Nat → Int) (size : Int)
    (hq : ∀ i : Nat, (i : Int) < size → q i = p i ∨ q i < 0)
    (hp : MatchesPattern wordBits FLAG_support_rr mem end_ p size = true) :
    MatchesPattern wordBits FLAG_support_rr mem end_ q size = true := by
  cases FLAG_support_rr with
  | true => rfl
  | false =>
    rw [MatchesPattern_false_iff] at hp ⊢
    intro i hi
    rcases hq i hi with h | h
    · rw [h]
      exact hp i hi
    · exact Or.inl h

theorem MatchesPattern_weaken_witness :
    MatchesPattern 64 false (fun _ => 0x90) 4096 (fun _ => 0x90) 2 = true
    ∧ MatchesPattern 64 false (fun _ => 0x90) 4096 (fun i => if i = 0 then -1 else 0x90) 2
        = true :=
  ⟨by decide,
   MatchesPattern_weaken 64 false (fun _ => 0x90) 4096 (fun _ => 0x90)
     (fun i => if i = 0 then -1 else 0x90) 2
     (fun i _ => by
        by_cases h : i = 0
        · right; simp [h]
        · left; simp [h])
     (by decide)⟩

/-! ## The flag of `WritableInstructionsScope` is read twice -/

/-- C19: the destructor of `WritableInstructionsScope` issues
`WriteProtectCode(address_, size_)` exactly when `FLAG_write_protect_code` is enabled
in the state it runs in, and the object records only its address and size. So a
scope constructed with the flag enabled and destroyed with it disabled issues
`Protect(address, size, kReadWrite)` and no `WriteProtectCode`: the block ends in the
state its body ended in, and when the body changed no protection the range is left
read-write. -/
theorem WritableInstructionsScope_flag_read_twice (address : Nat) (size : Int)
    (s : VMState) (body : VMState → VMState × ScopeExit)
    (hflag : s.FLAG_write_protect_code = true)
    (hflag2 :
      (body (WritableInstructionsScope.construct address size s).2).1.FLAG_write_protect_code
        = false) :
    (∀ (this : WritableInstructionsScope) (t : VMState),
        (WritableInstructionsScope.destruct this t).calls
          = if t.FLAG_write_protect_code then
              t.calls ++ [VMCall.WriteProtectCode this.address_ this.size_]
            else t.calls)
    ∧ (∀ t : VMState, (WritableInstructionsScope.construct address size t).1
        = { address_ := address, size_ := size })
    ∧ (WritableInstructionsScope.construct address size s).2.calls
        = s.calls ++ [VMCall.Protect address size Protection.kReadWrite]
    ∧ (WritableInstructionsScope.within address size body s).1
        = (body (WritableInstructionsScope.construct address size s).2).1
    ∧ ((body (WritableInstructionsScope.construct address size s).2).1.calls
          = (WritableInstructionsScope.construct address size s).2.calls →
        (WritableInstructionsScope.within address size body s).1.calls
          = s.calls ++ [VMCall.Protect address size Protection.kReadWrite])
    ∧ ((body (WritableInstructionsScope.construct address size s).2).1.protection
          = (WritableInstructionsScope.construct address size s).2.protection →
        ∀ a : Nat, inRange address size a = true →
          (WritableInstructionsScope.within address size body s).1.protection a
              = Protection.kReadWrite
            ∧ ((WritableInstructionsScope.within address size body s).1.protection a).writable
              = true) := by
  have hc : WritableInstructionsScope.construct address size s
      = ({ address_ := address, size_ := size },
          VirtualMemory.Protect address size Protection.kReadWrite s) := by
    simp [WritableInstructionsScope.construct, hflag]
  rw [hc] at hflag2
  have hw : (WritableInstructionsScope.within address size body s).1
      = (body (VirtualMemory.Protect address size Protection.kReadWrite s)).1 := by
    simp [WritableInstructionsScope.within, hc, WritableInstructionsScope.destruct, hflag2]
  rw [hw, hc]
  refine ⟨?_, ?_, rfl, rfl, ?_, ?_⟩
  · intro this t
    cases ht : t.FLAG_write_protect_code <;>
      simp [WritableInstructionsScope.destruct, ht, VirtualMemory.WriteProtectCode]
  · intro t
    cases ht : t.FLAG_write_protect_code <;>
      simp [WritableInstructionsScope.construct, ht]
  · intro hcalls
    rw [hcalls]
    rfl
  · intro hprot a ha
    rw [hprot]
    simp [VirtualMemory.Protect, ha, Protection.writable]

theorem WritableInstructionsScope_flag_read_twice_witness :
    (WritableInstructionsScope.within 4096 16
        (fun t => ({ t with FLAG_write_protect_code := false }, ScopeExit.fallThrough))
        { FLAG_write_protect_code := true
          protection := fun _ => Protection.kExecuteOnly
          calls := [] }).1.calls
      = [VMCall.Protect 4096 16 Protection.kReadWrite]
    ∧ (WritableInstructionsScope.within 4096 16
        (fun t => ({ t with FLAG_write_protect_code := false }, ScopeExit.fallThrough))
        { FLAG_write_protect_code := true
          protection := fun _ => Protection.kExecuteOnly
          calls := [] }).1.protection 4100 = Protection.kReadWrite :=
  ⟨(WritableInstructionsScope_flag_read_twice 4096 16
      { FLAG_write_protect_code := true
        protection := fun _ => Protection.kExecuteOnly
        calls := [] }
      (fun t => ({ t with FLAG_write_protect_code := false }, ScopeExit.fallThrough))
      rfl rfl).2.2.2.2.1 rfl,
   by decide⟩

end Dart
